import Mathlib

/-!
Verification development for the potree-core point-cloud loader.

We shallowly embed the three source files:
* the binary decode worker (`onmessage`): fixed-layout little-endian point
  records decoded into structure-of-arrays buffers with running mean and
  tight bounding box;
* the POC metadata parser (`parse` / `getBoundingBoxes` / `loadRoot` /
  `loadRemainingHierarchy` / `parseName`);
* the utilities (`getIndexFromName`, `byLevelAndIndex`).

JavaScript numbers are idealised as rationals (ℚ); the worker's
`Number.POSITIVE_INFINITY` / `NEGATIVE_INFINITY` seeds are modelled by an
explicit extended-number type `ENum`.  Byte buffers are lists of naturals
(< 256 on real inputs); a `DataView` read past the end of the buffer throws
in JavaScript, which we model with `Option`: `none` is a thrown exception
aborting the whole decode.
-/

/-- Extended number: a JavaScript number that may be `±Infinity`.
Only the shapes actually used by the worker are modelled (the seeds of the
tight bounding box, and `Math.min`/`Math.max` against a finite value). -/
inductive ENum where
  | posInf : ENum
  | negInf : ENum
  | fin : ℚ → ENum
deriving DecidableEq

/-- `Math.min(cur, x)` for a finite `x`, as used on the tight-box minima. -/
def emin : ENum → ℚ → ENum
  | ENum.posInf, x => ENum.fin x
  | ENum.negInf, _ => ENum.negInf
  | ENum.fin q, x => ENum.fin (min q x)

/-- `Math.max(cur, x)` for a finite `x`, as used on the tight-box maxima. -/
def emax : ENum → ℚ → ENum
  | ENum.posInf, _ => ENum.posInf
  | ENum.negInf, x => ENum.fin x
  | ENum.fin q, x => ENum.fin (max q x)

/-- A 3-component vector of rationals (three.js `Vector3`). -/
structure Vec3 where
  x : ℚ
  y : ℚ
  z : ℚ
deriving DecidableEq

/-- A 3-component vector of extended numbers (the worker's tight-box corners). -/
structure EVec3 where
  x : ENum
  y : ENum
  z : ENum
deriving DecidableEq

/-- A byte buffer: the contents of an `ArrayBuffer`, one natural per byte. -/
abbrev Buf := List Nat

/-- `DataView.getUint8(off)`: `none` models the thrown `RangeError` when the
read is out of bounds. -/
def getUint8 (b : Buf) (off : Nat) : Option Nat := b[off]?

/-- `DataView.getUint16(off, true)` (little endian). -/
def getUint16LE (b : Buf) (off : Nat) : Option Nat := do
  let b0 ← b[off]?
  let b1 ← b[off + 1]?
  pure (b0 + 256 * b1)

/-- `DataView.getInt32(off, true)` (little endian, two's complement). -/
def getInt32LE (b : Buf) (off : Nat) : Option Int := do
  let b0 ← b[off]?
  let b1 ← b[off + 1]?
  let b2 ← b[off + 2]?
  let b3 ← b[off + 3]?
  let u : Nat := b0 + 256 * b1 + 65536 * b2 + 16777216 * b3
  pure (if u < 2147483648 then (u : Int) else (u : Int) - 4294967296)

/-- The numeric fields of the message delivered to the decode worker
(`event.data` minus the raw buffer). -/
structure DecodeParams where
  numPoints : Nat
  pointSize : Nat
  pointFormatID : Nat
  scale : Vec3
  offset : Vec3
  mins : Vec3
deriving DecidableEq

/-- The worker's mutable per-decode state: the typed-array views over the
freshly allocated output `ArrayBuffer`s (which JavaScript zero-initialises),
plus the running mean and tight bounding box. -/
structure DecState where
  positions : List ℚ
  colors : List Nat
  intensities : List ℚ
  returnNumbers : List Nat
  numberOfReturns : List Nat
  pointSourceIDs : List Nat
  mean : Vec3
  tbbMin : EVec3
  tbbMax : EVec3
deriving DecidableEq

/-- The worker's output buffers right after allocation: `new ArrayBuffer(k)`
is all zeroes, the mean seed is `[0,0,0]`, and the tight bounding box is
seeded at `+∞` / `-∞`. -/
def initState (n : Nat) : DecState :=
  { positions := List.replicate (n * 3) 0
    colors := List.replicate (n * 4) 0
    intensities := List.replicate n 0
    returnNumbers := List.replicate n 0
    numberOfReturns := List.replicate n 0
    pointSourceIDs := List.replicate n 0
    mean := ⟨0, 0, 0⟩
    tbbMin := ⟨ENum.posInf, ENum.posInf, ENum.posInf⟩
    tbbMax := ⟨ENum.negInf, ENum.negInf, ENum.negInf⟩ }

/-- One iteration of the worker's decode loop (record `i`): position,
mean, tight box, intensity, packed return byte, point-source id, and — only
when `pointFormatID === 2` — the three 16-bit colour channels.  Storing the
float `r / 256` into a `Uint8Array` truncates, i.e. natural division by 256. -/
def decodeRecord (buf : Buf) (p : DecodeParams) (st : DecState) (i : Nat) :
    Option DecState := do
  let ux ← getInt32LE buf (i * p.pointSize)
  let uy ← getInt32LE buf (i * p.pointSize + 4)
  let uz ← getInt32LE buf (i * p.pointSize + 8)
  let x : ℚ := (ux : ℚ) * p.scale.x + p.offset.x - p.mins.x
  let y : ℚ := (uy : ℚ) * p.scale.y + p.offset.y - p.mins.y
  let z : ℚ := (uz : ℚ) * p.scale.z + p.offset.z - p.mins.z
  let st1 : DecState :=
    { st with
      positions := ((st.positions.set (3 * i) x).set (3 * i + 1) y).set (3 * i + 2) z
      mean := ⟨st.mean.x + x / (p.numPoints : ℚ), st.mean.y + y / (p.numPoints : ℚ),
               st.mean.z + z / (p.numPoints : ℚ)⟩
      tbbMin := ⟨emin st.tbbMin.x x, emin st.tbbMin.y y, emin st.tbbMin.z z⟩
      tbbMax := ⟨emax st.tbbMax.x x, emax st.tbbMax.y y, emax st.tbbMax.z z⟩ }
  let intensity ← getUint16LE buf (i * p.pointSize + 12)
  let st2 : DecState := { st1 with intensities := st1.intensities.set i (intensity : ℚ) }
  let rnnr ← getUint8 buf (i * p.pointSize + 14)
  let st3 : DecState :=
    { st2 with
      returnNumbers := st2.returnNumbers.set i (rnnr &&& 7)
      numberOfReturns := st2.numberOfReturns.set i ((rnnr &&& 56) >>> 3) }
  let psid ← getUint16LE buf (i * p.pointSize + 18)
  let st4 : DecState := { st3 with pointSourceIDs := st3.pointSourceIDs.set i psid }
  if p.pointFormatID = 2 then do
    let r ← getUint16LE buf (i * p.pointSize + 20)
    let g ← getUint16LE buf (i * p.pointSize + 22)
    let b ← getUint16LE buf (i * p.pointSize + 24)
    pure { st4 with
      colors := (((st4.colors.set (4 * i) (r / 256)).set (4 * i + 1) (g / 256)).set
        (4 * i + 2) (b / 256)).set (4 * i + 3) 255 }
  else pure st4

/-- The worker's `for (i = 0; i < numPoints; i++)` loop, processing `k`
remaining records starting at index `i` (so the decode runs it with
`k = numPoints`, `i = 0`). -/
def runUpTo (buf : Buf) (p : DecodeParams) : Nat → Nat → DecState → Option DecState
  | 0, _, st => some st
  | k + 1, i, st =>
    match decodeRecord buf p st i with
    | none => none
    | some st' => runUpTo buf p k (i + 1) st'

/-- The single message the worker posts back on success. -/
structure OutMessage where
  mean : Vec3
  position : List ℚ
  color : List Nat
  intensity : List ℚ
  returnNumber : List Nat
  numberOfReturns : List Nat
  pointSourceID : List Nat
  tightMin : EVec3
  tightMax : EVec3
  indices : List Nat
deriving DecidableEq

/-- The whole decode: run the loop over all records, then bundle the buffers
together with the identity index array (`iIndices[i] = i`).  `none` models a
thrown exception (no message is posted). -/
def decode (buf : Buf) (p : DecodeParams) : Option OutMessage :=
  match runUpTo buf p p.numPoints 0 (initState p.numPoints) with
  | none => none
  | some st =>
    some { mean := st.mean
           position := st.positions
           color := st.colors
           intensity := st.intensities
           returnNumber := st.returnNumbers
           numberOfReturns := st.numberOfReturns
           pointSourceID := st.pointSourceIDs
           tightMin := st.tbbMin
           tightMax := st.tbbMax
           indices := List.range p.numPoints }

/-- `event.data` as the worker sees it: possibly absent, and its `buffer`
field possibly absent. -/
structure WorkerData where
  buffer : Option Buf
  params : DecodeParams

/-- The event delivered to `onmessage`; `data` may be null/undefined. -/
structure WorkerEvent where
  data : Option WorkerData

/-- Observable outcome of one `onmessage` call: silently return, throw an
uncaught exception, or post exactly one result message. -/
inductive WorkerResult where
  | silent : WorkerResult
  | threw : WorkerResult
  | posted : OutMessage → WorkerResult
deriving DecidableEq

/-- The worker's `onmessage` handler: guard (`!event.data || !event.data.buffer`
returns silently), then decode and post. -/
def onmessage (event : WorkerEvent) : WorkerResult :=
  match event.data with
  | none => WorkerResult.silent
  | some d =>
    match d.buffer with
    | none => WorkerResult.silent
    | some buf =>
      match decode buf d.params with
      | none => WorkerResult.threw
      | some m => WorkerResult.posted m

/-- Helper for `versionLe`: an exhausted left side (all further components
zero) against the remaining right-side components. -/
def zerosLe : List Nat → Bool
  | [] => true
  | b :: bs => if 0 < b then true else zerosLe bs

/-- Modelled from the spec: `Version.upTo` (src `version.ts`, not among the
given sources) parses a dotted version string into numeric components and
compares component-by-component, left to right, with missing trailing
components treated as zero (spec §4.1).  We represent a parsed version
directly as its list of numeric components. -/
def versionLe : List Nat → List Nat → Bool
  | [], bs => zerosLe bs
  | a :: as, [] => if 0 < a then false else versionLe as []
  | a :: as, b :: bs => if a < b then true else if b < a then false else versionLe as bs

/-- A node name: a JavaScript string, one `Char` per code unit. -/
abbrev Name := List Char

/-- `getIndexFromName` (utils.ts): `parseInt(name.charAt(name.length - 1), 10)`.
`charAt` of an empty string is `""` and `parseInt` of a non-digit is `NaN`,
modelled as `none`. -/
def getIndexFromName (name : Name) : Option Nat :=
  name.getLast?.bind fun c => if c.isDigit then some (c.toNat - 48) else none

/-- `byLevelAndIndex` (utils.ts) applied to the two nodes' names: compare by
length first (`na.length - nb.length`), then by JavaScript string order. -/
def strLtB : Name → Name → Bool
  | [], [] => false
  | [], _ :: _ => true
  | _ :: _, [] => false
  | a :: as, b :: bs =>
    if a.toNat < b.toNat then true
    else if b.toNat < a.toNat then false
    else strLtB as bs

/-- `byLevelAndIndex` (utils.ts): the comparator value as an integer. -/
def byLevelAndIndex (na nb : Name) : Int :=
  if na.length ≠ nb.length then (na.length : Int) - (nb.length : Int)
  else if strLtB na nb then -1
  else if strLtB nb na then 1
  else 0

/-- The result of `parseName` (name → octant index, parent name, level). -/
structure ParsedName where
  index : Option Nat
  parentName : Name
  level : Nat

/-- `parseName`: `index = getIndexFromName(name)`, `parentName =
name.substring(0, name.length - 1)`, `level = name.length - 1`. -/
def parseName (name : Name) : ParsedName :=
  { index := getIndexFromName name
    parentName := name.dropLast
    level := name.length - 1 }

/-- An axis-aligned box (three.js `Box3`). -/
structure Box3 where
  bmin : Vec3
  bmax : Vec3
deriving DecidableEq

/-- Componentwise `Vector3.sub`. -/
def vsub (a b : Vec3) : Vec3 := ⟨a.x - b.x, a.y - b.y, a.z - b.z⟩

/-- The declared-box fields of the metadata document (`lx … uz`). -/
structure BoundingBoxData where
  lx : ℚ
  ly : ℚ
  lz : ℚ
  ux : ℚ
  uy : ℚ
  uz : ℚ
deriving DecidableEq

/-- `getBoundingBoxes`: build the global box from the declared corners, take
the offset as the (pre-translation) minimum corner, replace the tight box by
the declared tight box when present, then translate every stored corner by
subtracting the offset.  Returns `(offset, boundingBox, tightBoundingBox)`. -/
def getBoundingBoxes (bb : BoundingBoxData) (tight : Option BoundingBoxData) :
    Vec3 × Box3 × Box3 :=
  let vmin : Vec3 := ⟨bb.lx, bb.ly, bb.lz⟩
  let vmax : Vec3 := ⟨bb.ux, bb.uy, bb.uz⟩
  let offset := vmin
  let tightBox : Box3 :=
    match tight with
    | none => ⟨vmin, vmax⟩
    | some t => ⟨⟨t.lx, t.ly, t.lz⟩, ⟨t.ux, t.uy, t.uz⟩⟩
  ⟨offset, ⟨vsub vmin offset, vsub vmax offset⟩,
    ⟨vsub tightBox.bmin offset, vsub tightBox.bmax offset⟩⟩

/-- Modelled from the spec: `createChildAABB` (src `utils/bounds.ts`, not
among the given sources) halves each axis extent of the parent box and keeps
the lower or upper half per axis according to a fixed 3-bit convention
(spec §4.2/§9; the exact bit-to-axis assignment is the writer's convention —
we fix bit 0 → x, bit 1 → y, bit 2 → z, a set bit selecting the upper half).
A `none` index (JavaScript `NaN` from a non-digit name character) behaves as
`NaN` does under JavaScript bitwise operations: as 0. -/
def createChildAABB (parent : Box3) (index : Option Nat) : Box3 :=
  let i := index.getD 0
  let mx := parent.bmin.x + (parent.bmax.x - parent.bmin.x) / 2
  let my := parent.bmin.y + (parent.bmax.y - parent.bmin.y) / 2
  let mz := parent.bmin.z + (parent.bmax.z - parent.bmin.z) / 2
  { bmin := ⟨if i &&& 1 = 0 then parent.bmin.x else mx,
             if i &&& 2 = 0 then parent.bmin.y else my,
             if i &&& 4 = 0 then parent.bmin.z else mz⟩
    bmax := ⟨if i &&& 1 = 0 then mx else parent.bmax.x,
             if i &&& 2 = 0 then my else parent.bmax.y,
             if i &&& 4 = 0 then mz else parent.bmax.z⟩ }

/-- A child-slot table: octant index (`none` = `NaN`) to child name. -/
abbrev Slots := List (Option Nat × Name)

/-- A `PointCloudOctreeGeometryNode` as far as this subsystem sets it up. -/
structure GeoNode where
  name : Name
  level : Nat
  numPoints : Nat
  spacing : ℚ
  boundingBox : Box3
  hasChildren : Bool
  children : Slots
deriving DecidableEq

/-- The `nodes` lookup table (`Record<string, node>`), as an association
list; `mapSet` overwrites an existing key or appends a fresh one, matching
JavaScript property assignment for lookup purposes. -/
abbrev NodeMap := List (Name × GeoNode)

/-- `nodes[k]` (property read). -/
def mapGet (m : NodeMap) (k : Name) : Option GeoNode :=
  match m with
  | [] => none
  | (k', v) :: t => if k' = k then some v else mapGet t k

/-- `nodes[k] = v` (property write: overwrite or append). -/
def mapSet (m : NodeMap) (k : Name) (v : GeoNode) : NodeMap :=
  match m with
  | [] => [(k, v)]
  | (k', v') :: t => if k' = k then (k, v) :: t else (k', v') :: mapSet t k v

/-- `children[i]` (slot read). -/
def slotGet (ch : Slots) (i : Option Nat) : Option Name :=
  match ch with
  | [] => none
  | (i', n) :: t => if i' = i then some n else slotGet t i

/-- `children[i] = child` (slot write: overwrite or append). -/
def slotSet (ch : Slots) (i : Option Nat) (n : Name) : Slots :=
  match ch with
  | [] => [(i, n)]
  | (i', n') :: t => if i' = i then (i, n) :: t else (i', n') :: slotSet t i n

/-- Modelled from the spec: `PointCloudOctreeGeometryNode.addChild` (class
not among the given sources) attaches the child to the parent's child slot
for the child's octant index (spec §4.2 step 3). -/
def addChild (parent : GeoNode) (i : Option Nat) (child : Name) : GeoNode :=
  { parent with children := slotSet parent.children i child }

/-- One iteration of the `loadRemainingHierarchy` loop: parse the name, look
up the parent (a missing parent is a thrown `TypeError` when its
`boundingBox` is read — modelled as `none`, aborting the build), create the
child node, register it in the map and attach it to the parent.  The parent
object is mutated in place in JavaScript; we write the parent's map entry
first and the child's second, which agrees with the JavaScript heap in every
case (including the degenerate `name = parentName`). -/
def hierarchyStep (spacing : ℚ) (nodes : NodeMap) (entry : Name × Nat) :
    Option NodeMap :=
  let name := entry.1
  let pn := parseName name
  match mapGet nodes pn.parentName with
  | none => none
  | some parentNode =>
    let node : GeoNode :=
      { name := name
        level := pn.level
        numPoints := entry.2
        spacing := spacing / 2 ^ pn.level
        boundingBox := createChildAABB parentNode.boundingBox pn.index
        hasChildren := false
        children := [] }
    some (mapSet (mapSet nodes pn.parentName (addChild parentNode pn.index name)) name node)

/-- `loadRemainingHierarchy`: the loop over `data.hierarchy` entries after
the first (the caller passes `hierarchy.drop 1`). -/
def loadRemainingHierarchy (spacing : ℚ) (nodes : NodeMap) :
    List (Name × Nat) → Option NodeMap
  | [] => some nodes
  | e :: rest =>
    match hierarchyStep spacing nodes e with
    | none => none
    | some m => loadRemainingHierarchy spacing m rest

/-- `loadRoot`: build the root node `'r'` at the full bounding box with the
document spacing, `hasChildren = true`, and `numPoints` taken from
`data.hierarchy[0][1]` when `version.upTo('1.5')` and `0` otherwise; register
it in the map.  Reading `data.hierarchy[0][1]` of an absent first entry
throws in JavaScript (`none`).  The node's constructor defaults (level 0,
no children) are modelled from the spec (§4.2 step 2: root at level 0). -/
def loadRoot (spacing : ℚ) (boundingBox : Box3) (version : List Nat)
    (hierarchy : List (Name × Nat)) : Option NodeMap :=
  let mk : Nat → GeoNode := fun np =>
    { name := ['r']
      level := 0
      numPoints := np
      spacing := spacing
      boundingBox := boundingBox
      hasChildren := true
      children := [] }
  if versionLe version [1, 5] then
    match hierarchy.head? with
    | none => none
    | some e => some (mapSet [] ['r'] (mk e.2))
  else some (mapSet [] ['r'] (mk 0))

/-- The node-building part of `parse`: load the root, then — exactly when
`version.upTo('1.4')` — populate the rest of the tree inline from the flat
hierarchy list. -/
def buildNodes (spacing : ℚ) (boundingBox : Box3) (version : List Nat)
    (hierarchy : List (Name × Nat)) : Option NodeMap :=
  match loadRoot spacing boundingBox version hierarchy with
  | none => none
  | some nodes =>
    if versionLe version [1, 4] then
      loadRemainingHierarchy spacing nodes (hierarchy.drop 1)
    else some nodes

/-- The highest byte span the decode loop accesses within one record: the
point-source id read ends at relative offset 20, and with format 2 the last
colour read ends at relative offset 26. -/
def recordSpan (fmt : Nat) : Nat := if fmt = 2 then 26 else 20

/-- The least buffer length on which a decode of `n` records of declared
size `sps` succeeds: everything up to the last record's furthest read. -/
def requiredLen (n sps fmt : Nat) : Nat :=
  if n = 0 then 0 else (n - 1) * sps + recordSpan fmt

/-- A concrete one-record, format-0 decode request (record size 20). -/
def wbuf20 : Buf := [1, 0, 0, 0, 2, 0, 0, 0, 3, 0, 0, 0, 5, 0, 10, 0, 0, 0, 7, 0]

/-- Parameters for `wbuf20`: unit scale, zero offset, zero global minimum. -/
def wparams20 : DecodeParams :=
  { numPoints := 1
    pointSize := 20
    pointFormatID := 0
    scale := ⟨1, 1, 1⟩
    offset := ⟨0, 0, 0⟩
    mins := ⟨0, 0, 0⟩ }

/-- The message the worker posts for `wbuf20` / `wparams20`. -/
def wout20 : OutMessage :=
  { mean := ⟨1, 2, 3⟩
    position := [1, 2, 3]
    color := [0, 0, 0, 0]
    intensity := [5]
    returnNumber := [2]
    numberOfReturns := [1]
    pointSourceID := [7]
    tightMin := ⟨ENum.fin 1, ENum.fin 2, ENum.fin 3⟩
    tightMax := ⟨ENum.fin 1, ENum.fin 2, ENum.fin 3⟩
    indices := [0] }

/-- A concrete one-record, format-2 decode request (record size 26) whose
16-bit colour channels are 512, 300 and 770. -/
def wbuf26 : Buf :=
  [1, 0, 0, 0, 2, 0, 0, 0, 3, 0, 0, 0, 5, 0, 10, 0, 0, 0, 7, 0, 0, 2, 44, 1, 2, 3]

/-- Parameters for `wbuf26`. -/
def wparams26 : DecodeParams :=
  { numPoints := 1
    pointSize := 26
    pointFormatID := 2
    scale := ⟨1, 1, 1⟩
    offset := ⟨0, 0, 0⟩
    mins := ⟨0, 0, 0⟩ }

/-- The message the worker posts for `wbuf26` / `wparams26`: the colour
channels truncate to bytes 2, 1 and 3, with alpha 255. -/
def wout26 : OutMessage :=
  { mean := ⟨1, 2, 3⟩
    position := [1, 2, 3]
    color := [2, 1, 3, 255]
    intensity := [5]
    returnNumber := [2]
    numberOfReturns := [1]
    pointSourceID := [7]
    tightMin := ⟨ENum.fin 1, ENum.fin 2, ENum.fin 3⟩
    tightMax := ⟨ENum.fin 1, ENum.fin 2, ENum.fin 3⟩
    indices := [0] }

/-- Parent-before-child discipline for the flat hierarchy entries after the
first: every entry's name has length at least 2, ends in a decimal digit,
and its parent name (the name minus its last character) has appeared
earlier (among `seen`). -/
def parentBeforeChild (seen : List Name) : List (Name × Nat) → Bool
  | [] => true
  | (n, _) :: rest =>
    decide (2 ≤ n.length) && decide (n.dropLast ∈ seen) &&
      (getIndexFromName n).isSome && parentBeforeChild (n :: seen) rest

/-- Invariant of the node map during the hierarchy build: every registered
child slot holds the name obtained by appending the slot's digit to the
parent's name, and that child is itself registered. -/
def childrenWF (m : NodeMap) : Prop :=
  ∀ k node, mapGet m k = some node →
    ∀ i nm, slotGet node.children i = some nm →
      nm ≠ [] ∧ nm.dropLast = k ∧ getIndexFromName nm = i ∧ mapGet m nm ≠ none

theorem getElem?_isSome_iff {α : Type} (l : List α) (i : Nat) :
    l[i]?.isSome = true ↔ i < l.length := by
  constructor
  · intro h
    rcases Option.isSome_iff_exists.mp h with ⟨a, ha⟩
    exact (List.getElem?_eq_some.mp ha).1
  · intro h
    rw [List.getElem?_eq_getElem h]
    rfl

theorem getUint8_isSome (b : Buf) (off : Nat) :
    (getUint8 b off).isSome = true ↔ off + 1 ≤ b.length := by
  unfold getUint8
  rw [getElem?_isSome_iff]
  omega

theorem getUint16LE_isSome (b : Buf) (off : Nat) :
    (getUint16LE b off).isSome = true ↔ off + 2 ≤ b.length := by
  unfold getUint16LE
  rcases h0 : b[off]? with _ | b0
  · have := List.getElem?_eq_none_iff.mp h0
    simp [h0]
    omega
  · rcases h1 : b[off + 1]? with _ | b1
    · have := List.getElem?_eq_none_iff.mp h1
      simp [h0, h1]
      omega
    · have := (List.getElem?_eq_some.mp h1).1
      simp [h0, h1]
      omega

theorem getInt32LE_isSome (b : Buf) (off : Nat) :
    (getInt32LE b off).isSome = true ↔ off + 4 ≤ b.length := by
  unfold getInt32LE
  rcases h0 : b[off]? with _ | b0
  · have := List.getElem?_eq_none_iff.mp h0
    simp [h0]
    omega
  · rcases h1 : b[off + 1]? with _ | b1
    · have := List.getElem?_eq_none_iff.mp h1
      simp [h0, h1]
      omega
    · rcases h2 : b[off + 2]? with _ | b2
      · have := List.getElem?_eq_none_iff.mp h2
        simp [h0, h1, h2]
        omega
      · rcases h3 : b[off + 3]? with _ | b3
        · have := List.getElem?_eq_none_iff.mp h3
          simp [h0, h1, h2, h3]
          omega
        · have := (List.getElem?_eq_some.mp h3).1
          simp [h0, h1, h2, h3]
          omega

theorem decodeRecord_some (buf : Buf) (p : DecodeParams) (st st' : DecState) (i : Nat)
    (h : decodeRecord buf p st i = some st') :
    ∃ ux uy uz : Int, ∃ intensity rnnr psid : Nat,
      getInt32LE buf (i * p.pointSize) = some ux ∧
      getInt32LE buf (i * p.pointSize + 4) = some uy ∧
      getInt32LE buf (i * p.pointSize + 8) = some uz ∧
      getUint16LE buf (i * p.pointSize + 12) = some intensity ∧
      getUint8 buf (i * p.pointSize + 14) = some rnnr ∧
      getUint16LE buf (i * p.pointSize + 18) = some psid ∧
      st'.positions = ((st.positions.set (3 * i) ((ux : ℚ) * p.scale.x + p.offset.x - p.mins.x)).set
        (3 * i + 1) ((uy : ℚ) * p.scale.y + p.offset.y - p.mins.y)).set (3 * i + 2)
        ((uz : ℚ) * p.scale.z + p.offset.z - p.mins.z) ∧
      (p.pointFormatID = 2 →
        ∃ r g b : Nat,
          getUint16LE buf (i * p.pointSize + 20) = some r ∧
          getUint16LE buf (i * p.pointSize + 22) = some g ∧
          getUint16LE buf (i * p.pointSize + 24) = some b ∧
          st'.colors = (((st.colors.set (4 * i) (r / 256)).set (4 * i + 1) (g / 256)).set
            (4 * i + 2) (b / 256)).set (4 * i + 3) 255) ∧
      (p.pointFormatID ≠ 2 → st'.colors = st.colors) := by
  unfold decodeRecord at h
  rcases hux : getInt32LE buf (i * p.pointSize) with _ | ux
  · rw [hux] at h; simp at h
  rw [hux] at h
  rcases huy : getInt32LE buf (i * p.pointSize + 4) with _ | uy
  · rw [huy] at h; simp at h
  rw [huy] at h
  rcases huz : getInt32LE buf (i * p.pointSize + 8) with _ | uz
  · rw [huz] at h; simp at h
  rw [huz] at h
  rcases hint : getUint16LE buf (i * p.pointSize + 12) with _ | intensity
  · rw [hint] at h; simp at h
  rw [hint] at h
  rcases hrn : getUint8 buf (i * p.pointSize + 14) with _ | rnnr
  · rw [hrn] at h; simp at h
  rw [hrn] at h
  rcases hps : getUint16LE buf (i * p.pointSize + 18) with _ | psid
  · rw [hps] at h; simp at h
  rw [hps] at h
  simp only [Option.bind_eq_bind, Option.some_bind] at h
  by_cases hf : p.pointFormatID = 2
  · rw [if_pos hf] at h
    rcases hr : getUint16LE buf (i * p.pointSize + 20) with _ | r
    · rw [hr] at h; simp at h
    rw [hr] at h
    rcases hg : getUint16LE buf (i * p.pointSize + 22) with _ | g
    · rw [hg] at h; simp at h
    rw [hg] at h
    rcases hb : getUint16LE buf (i * p.pointSize + 24) with _ | b
    · rw [hb] at h; simp at h
    rw [hb] at h
    simp only [Option.bind_eq_bind, Option.some_bind, Option.pure_def, Option.some_inj] at h
    subst h
    refine ⟨ux, uy, uz, intensity, rnnr, psid, rfl, rfl, rfl, rfl, rfl, rfl, rfl, ?_, ?_⟩
    · intro _
      exact ⟨r, g, b, rfl, rfl, rfl, rfl⟩
    · intro hne
      exact absurd hf hne
  · rw [if_neg hf] at h
    simp only [Option.pure_def, Option.some_inj] at h
    subst h
    refine ⟨ux, uy, uz, intensity, rnnr, psid, rfl, rfl, rfl, rfl, rfl, rfl, rfl, ?_, ?_⟩
    · intro h2
      exact absurd h2 hf
    · intro _
      rfl

theorem decodeRecord_isSome_of_le (buf : Buf) (p : DecodeParams) (st : DecState) (i : Nat)
    (hle : i * p.pointSize + recordSpan p.pointFormatID ≤ buf.length) :
    (decodeRecord buf p st i).isSome = true := by
  have h20 : 20 ≤ recordSpan p.pointFormatID := by
    unfold recordSpan; split <;> omega
  obtain ⟨ux, hux⟩ := Option.isSome_iff_exists.mp
    ((getInt32LE_isSome buf (i * p.pointSize)).mpr (by omega))
  obtain ⟨uy, huy⟩ := Option.isSome_iff_exists.mp
    ((getInt32LE_isSome buf (i * p.pointSize + 4)).mpr (by omega))
  obtain ⟨uz, huz⟩ := Option.isSome_iff_exists.mp
    ((getInt32LE_isSome buf (i * p.pointSize + 8)).mpr (by omega))
  obtain ⟨intensity, hint⟩ := Option.isSome_iff_exists.mp
    ((getUint16LE_isSome buf (i * p.pointSize + 12)).mpr (by omega))
  obtain ⟨rnnr, hrn⟩ := Option.isSome_iff_exists.mp
    ((getUint8_isSome buf (i * p.pointSize + 14)).mpr (by omega))
  obtain ⟨psid, hps⟩ := Option.isSome_iff_exists.mp
    ((getUint16LE_isSome buf (i * p.pointSize + 18)).mpr (by omega))
  unfold decodeRecord
  rw [hux, huy, huz, hint, hrn, hps]
  simp only [Option.bind_eq_bind, Option.some_bind]
  by_cases hf : p.pointFormatID = 2
  · have h26 : recordSpan p.pointFormatID = 26 := by
      unfold recordSpan; rw [if_pos hf]
    obtain ⟨r, hr⟩ := Option.isSome_iff_exists.mp
      ((getUint16LE_isSome buf (i * p.pointSize + 20)).mpr (by omega))
    obtain ⟨g, hg⟩ := Option.isSome_iff_exists.mp
      ((getUint16LE_isSome buf (i * p.pointSize + 22)).mpr (by omega))
    obtain ⟨b, hb⟩ := Option.isSome_iff_exists.mp
      ((getUint16LE_isSome buf (i * p.pointSize + 24)).mpr (by omega))
    rw [if_pos hf, hr, hg, hb]
    simp
  · rw [if_neg hf]
    simp

theorem decodeRecord_isSome_iff (buf : Buf) (p : DecodeParams) (st : DecState) (i : Nat) :
    (decodeRecord buf p st i).isSome = true ↔
      i * p.pointSize + recordSpan p.pointFormatID ≤ buf.length := by
  constructor
  · intro h
    obtain ⟨st', hst⟩ := Option.isSome_iff_exists.mp h
    obtain ⟨ux, uy, uz, it, rn, ps, _, _, _, _, _, hps, _, hcol2, _⟩ :=
      decodeRecord_some buf p st st' i hst
    have h1 : i * p.pointSize + 18 + 2 ≤ buf.length :=
      (getUint16LE_isSome buf (i * p.pointSize + 18)).mp (by rw [hps]; rfl)
    by_cases hf : p.pointFormatID = 2
    · obtain ⟨r, g, b, _, _, hb, _⟩ := hcol2 hf
      have h2 : i * p.pointSize + 24 + 2 ≤ buf.length :=
        (getUint16LE_isSome buf (i * p.pointSize + 24)).mp (by rw [hb]; rfl)
      unfold recordSpan
      rw [if_pos hf]
      omega
    · unfold recordSpan
      rw [if_neg hf]
      omega
  · exact decodeRecord_isSome_of_le buf p st i

theorem runUpTo_isSome (buf : Buf) (p : DecodeParams) :
    ∀ (k i : Nat) (st : DecState),
      (runUpTo buf p k i st).isSome = true ↔
        ∀ j, i ≤ j → j < i + k →
          j * p.pointSize + recordSpan p.pointFormatID ≤ buf.length := by
  intro k
  induction k with
  | zero =>
    intro i st
    constructor
    · intro _ j h1 h2
      omega
    · intro _
      rfl
  | succ k ih =>
    intro i st
    rcases hd : decodeRecord buf p st i with _ | st'
    · have hnone : runUpTo buf p (k + 1) i st = none := by
        simp [runUpTo, hd]
      rw [hnone]
      simp only [Option.isSome_none, Bool.false_eq_true, false_iff]
      intro hall
      have hmem := hall i (Nat.le_refl i) (by omega)
      have hsm := (decodeRecord_isSome_iff buf p st i).mpr hmem
      rw [hd] at hsm
      simp at hsm
    · have hsome : runUpTo buf p (k + 1) i st = runUpTo buf p k (i + 1) st' := by
        simp [runUpTo, hd]
      rw [hsome, ih (i + 1) st']
      constructor
      · intro hall j hj1 hj2
        by_cases hji : j = i
        · subst hji
          have hsm : (decodeRecord buf p st j).isSome = true := by rw [hd]; rfl
          exact (decodeRecord_isSome_iff buf p st j).mp hsm
        · exact hall j (by omega) (by omega)
      · intro hall j hj1 hj2
        exact hall j (by omega) (by omega)

/-- C1 (amended): the decoder has no explicit length check; a decode
succeeds exactly when the buffer covers the furthest byte the loop reads —
`(num_points − 1) * source_record_size + 26` bytes for `point_format_id = 2`
and `+ 20` otherwise (`0` bytes for zero points).  A shorter buffer aborts
with a thrown out-of-range read, and a buffer shorter than
`num_points * source_record_size` can still decode successfully. -/
theorem decode_success_boundary (buf : Buf) (p : DecodeParams) :
    (decode buf p).isSome = true ↔
      requiredLen p.numPoints p.pointSize p.pointFormatID ≤ buf.length := by
  have hdec : (decode buf p).isSome
      = (runUpTo buf p p.numPoints 0 (initState p.numPoints)).isSome := by
    unfold decode
    rcases runUpTo buf p p.numPoints 0 (initState p.numPoints) with _ | st <;> rfl
  rw [hdec, runUpTo_isSome buf p p.numPoints 0 (initState p.numPoints)]
  unfold requiredLen
  rcases Nat.eq_zero_or_pos p.numPoints with h0 | hpos
  · rw [h0]
    constructor
    · intro _
      simp
    · intro _ j _ hj
      omega
  · rw [if_neg (by omega)]
    constructor
    · intro hall
      exact hall (p.numPoints - 1) (by omega) (by omega)
    · intro hle j _ hj2
      have hmul : j * p.pointSize ≤ (p.numPoints - 1) * p.pointSize :=
        Nat.mul_le_mul_right _ (by omega)
      omega

/-- C1 (counterexample): a one-record decode with a declared record size of
40 bytes and format id 0 succeeds on a 20-byte buffer, although the buffer
is shorter than `num_points * source_record_size = 40`; no failure of any
kind occurs. -/
theorem decode_short_buffer_succeeds :
    (decode (List.replicate 20 0)
      { numPoints := 1, pointSize := 40, pointFormatID := 0,
        scale := ⟨1, 1, 1⟩, offset := ⟨0, 0, 0⟩, mins := ⟨0, 0, 0⟩ }).isSome = true ∧
    (List.replicate 20 0 : Buf).length < 1 * 40 := by
  constructor
  · with_unfolding_all rfl
  · decide

theorem getElem?_set_self_of_lt {α : Type} (l : List α) (i : Nat) (a : α)
    (h : i < l.length) : (l.set i a)[i]? = some a := by
  simp [List.getElem?_set_self, h]

theorem runUpTo_extract (buf : Buf) (p : DecodeParams) :
    ∀ (k i : Nat) (st stf : DecState),
      runUpTo buf p k i st = some stf →
      stf.positions.length = st.positions.length ∧
      stf.colors.length = st.colors.length ∧
      (∀ j, j < 3 * i → stf.positions[j]? = st.positions[j]?) ∧
      (∀ j, j < 4 * i → stf.colors[j]? = st.colors[j]?) ∧
      (∀ j, i ≤ j → j < i + k →
        (∃ ux uy uz : Int,
          getInt32LE buf (j * p.pointSize) = some ux ∧
          getInt32LE buf (j * p.pointSize + 4) = some uy ∧
          getInt32LE buf (j * p.pointSize + 8) = some uz ∧
          (3 * j + 2 < st.positions.length →
            stf.positions[3 * j]? = some ((ux : ℚ) * p.scale.x + p.offset.x - p.mins.x) ∧
            stf.positions[3 * j + 1]? = some ((uy : ℚ) * p.scale.y + p.offset.y - p.mins.y) ∧
            stf.positions[3 * j + 2]? = some ((uz : ℚ) * p.scale.z + p.offset.z - p.mins.z))) ∧
        (p.pointFormatID = 2 →
          ∃ r g b : Nat,
            getUint16LE buf (j * p.pointSize + 20) = some r ∧
            getUint16LE buf (j * p.pointSize + 22) = some g ∧
            getUint16LE buf (j * p.pointSize + 24) = some b ∧
            (4 * j + 3 < st.colors.length →
              stf.colors[4 * j]? = some (r / 256) ∧
              stf.colors[4 * j + 1]? = some (g / 256) ∧
              stf.colors[4 * j + 2]? = some (b / 256) ∧
              stf.colors[4 * j + 3]? = some 255))) ∧
      (p.pointFormatID ≠ 2 → stf.colors = st.colors) := by
  intro k
  induction k with
  | zero =>
    intro i st stf h
    have hst : st = stf := by simpa [runUpTo] using h
    subst hst
    refine ⟨rfl, rfl, fun j _ => rfl, fun j _ => rfl, ?_, fun _ => rfl⟩
    intro j hj1 hj2
    exact (by omega : False).elim
  | succ k ih =>
    intro i st stf h
    rcases hd : decodeRecord buf p st i with _ | st'
    · rw [runUpTo, hd] at h
      simp at h
    · have hrest : runUpTo buf p k (i + 1) st' = some stf := by
        rw [runUpTo, hd] at h
        exact h
      obtain ⟨Lp, Lc, Pp, Pc, Rec, Cno⟩ := ih (i + 1) st' stf hrest
      obtain ⟨ux, uy, uz, it, rn, ps, hux, huy, huz, hint, hrn, hps, hpos, hc2, hcn⟩ :=
        decodeRecord_some buf p st st' i hd
      have hlp : st'.positions.length = st.positions.length := by
        rw [hpos]; simp
      have hlc : st'.colors.length = st.colors.length := by
        by_cases hf : p.pointFormatID = 2
        · obtain ⟨r, g, b, _, _, _, hcol⟩ := hc2 hf
          rw [hcol]; simp
        · rw [hcn hf]
      have Pp' : ∀ j, j < 3 * i → stf.positions[j]? = st.positions[j]? := by
        intro j hj
        rw [Pp j (by omega), hpos]
        rw [List.getElem?_set_ne (by omega), List.getElem?_set_ne (by omega),
          List.getElem?_set_ne (by omega)]
      have Pc' : ∀ j, j < 4 * i → stf.colors[j]? = st.colors[j]? := by
        intro j hj
        rw [Pc j (by omega)]
        by_cases hf : p.pointFormatID = 2
        · obtain ⟨r, g, b, _, _, _, hcol⟩ := hc2 hf
          rw [hcol]
          rw [List.getElem?_set_ne (by omega), List.getElem?_set_ne (by omega),
            List.getElem?_set_ne (by omega), List.getElem?_set_ne (by omega)]
        · rw [hcn hf]
      refine ⟨Lp.trans hlp, Lc.trans hlc, Pp', Pc', ?_, fun hf => (Cno hf).trans (hcn hf)⟩
      intro j hj1 hj2
      by_cases hji : j = i
      · subst hji
        constructor
        · refine ⟨ux, uy, uz, hux, huy, huz, ?_⟩
          intro hlen
          refine ⟨?_, ?_, ?_⟩
          · rw [Pp (3 * j) (by omega), hpos]
            rw [List.getElem?_set_ne (by omega), List.getElem?_set_ne (by omega)]
            exact getElem?_set_self_of_lt _ _ _ (by omega)
          · rw [Pp (3 * j + 1) (by omega), hpos]
            rw [List.getElem?_set_ne (by omega)]
            have hl1 : (st.positions.set (3 * j)
                ((ux : ℚ) * p.scale.x + p.offset.x - p.mins.x)).length
                = st.positions.length := by simp
            exact getElem?_set_self_of_lt _ _ _ (by rw [hl1]; omega)
          · have hl2 : ((st.positions.set (3 * j)
                ((ux : ℚ) * p.scale.x + p.offset.x - p.mins.x)).set (3 * j + 1)
                ((uy : ℚ) * p.scale.y + p.offset.y - p.mins.y)).length
                = st.positions.length := by simp
            rw [Pp (3 * j + 2) (by omega), hpos]
            exact getElem?_set_self_of_lt _ _ _ (by rw [hl2]; omega)
        · intro hf
          obtain ⟨r, g, b, hr, hg, hb, hcol⟩ := hc2 hf
          refine ⟨r, g, b, hr, hg, hb, ?_⟩
          intro hlen
          have hlen0 : 4 * j < st.colors.length := by omega
          refine ⟨?_, ?_, ?_, ?_⟩
          · rw [Pc (4 * j) (by omega), hcol]
            rw [List.getElem?_set_ne (by omega), List.getElem?_set_ne (by omega),
              List.getElem?_set_ne (by omega)]
            exact getElem?_set_self_of_lt _ _ _ (by omega)
          · rw [Pc (4 * j + 1) (by omega), hcol]
            rw [List.getElem?_set_ne (by omega), List.getElem?_set_ne (by omega)]
            exact getElem?_set_self_of_lt _ _ _ (by simp; omega)
          · rw [Pc (4 * j + 2) (by omega), hcol]
            rw [List.getElem?_set_ne (by omega)]
            exact getElem?_set_self_of_lt _ _ _ (by simp; omega)
          · rw [Pc (4 * j + 3) (by omega), hcol]
            exact getElem?_set_self_of_lt _ _ _ (by simp; omega)
      · obtain ⟨hrec, hcrec⟩ := Rec j (by omega) (by omega)
        constructor
        · obtain ⟨ux', uy', uz', h1, h2, h3, h4⟩ := hrec
          exact ⟨ux', uy', uz', h1, h2, h3, fun hlen => h4 (by omega)⟩
        · intro hf
          obtain ⟨r, g, b, h1, h2, h3, h4⟩ := hcrec hf
          exact ⟨r, g, b, h1, h2, h3, fun hlen => h4 (by omega)⟩

theorem decode_some_inv (buf : Buf) (p : DecodeParams) (out : OutMessage)
    (h : decode buf p = some out) :
    ∃ st, runUpTo buf p p.numPoints 0 (initState p.numPoints) = some st ∧
      out.position = st.positions ∧ out.color = st.colors := by
  unfold decode at h
  rcases hr : runUpTo buf p p.numPoints 0 (initState p.numPoints) with _ | st
  · rw [hr] at h
    simp at h
  · rw [hr] at h
    simp only [Option.some_inj] at h
    subst h
    exact ⟨st, rfl, rfl, rfl⟩

/-- C4: for every record `i` of a successful decode, the worker reads signed
little-endian 32-bit quantized X, Y, Z at byte offsets 0, 4 and 8 within the
record and stores `position[i]` (the floats at flat indices `3i … 3i+2`)
with each axis computed as `quantized * scale + offset − global_min`. -/
theorem decode_positions (buf : Buf) (p : DecodeParams) (out : OutMessage)
    (h : decode buf p = some out) :
    ∀ i, i < p.numPoints →
      ∃ ux uy uz : Int,
        getInt32LE buf (i * p.pointSize) = some ux ∧
        getInt32LE buf (i * p.pointSize + 4) = some uy ∧
        getInt32LE buf (i * p.pointSize + 8) = some uz ∧
        out.position[3 * i]? = some ((ux : ℚ) * p.scale.x + p.offset.x - p.mins.x) ∧
        out.position[3 * i + 1]? = some ((uy : ℚ) * p.scale.y + p.offset.y - p.mins.y) ∧
        out.position[3 * i + 2]? = some ((uz : ℚ) * p.scale.z + p.offset.z - p.mins.z) := by
  intro i hi
  obtain ⟨st, hr, hpos, hcol⟩ := decode_some_inv buf p out h
  obtain ⟨_, _, _, _, Rec, _⟩ :=
    runUpTo_extract buf p p.numPoints 0 (initState p.numPoints) st hr
  obtain ⟨⟨ux, uy, uz, h1, h2, h3, h4⟩, _⟩ := Rec i (by omega) (by omega)
  have hlen : 3 * i + 2 < (initState p.numPoints).positions.length := by
    simp [initState]
    omega
  obtain ⟨e1, e2, e3⟩ := h4 hlen
  refine ⟨ux, uy, uz, h1, h2, h3, ?_, ?_, ?_⟩
  · rw [hpos]; exact e1
  · rw [hpos]; exact e2
  · rw [hpos]; exact e3

/-- Witness for C4: a one-record buffer with quantized coordinates
(1, 2, 3), unit scale, zero offset and zero minimum. -/
theorem decode_positions_witness :
    decode wbuf20 wparams20 = some wout20 ∧
    (∀ i, i < wparams20.numPoints →
      ∃ ux uy uz : Int,
        getInt32LE wbuf20 (i * wparams20.pointSize) = some ux ∧
        getInt32LE wbuf20 (i * wparams20.pointSize + 4) = some uy ∧
        getInt32LE wbuf20 (i * wparams20.pointSize + 8) = some uz ∧
        wout20.position[3 * i]? =
          some ((ux : ℚ) * wparams20.scale.x + wparams20.offset.x - wparams20.mins.x) ∧
        wout20.position[3 * i + 1]? =
          some ((uy : ℚ) * wparams20.scale.y + wparams20.offset.y - wparams20.mins.y) ∧
        wout20.position[3 * i + 2]? =
          some ((uz : ℚ) * wparams20.scale.z + wparams20.offset.z - wparams20.mins.z)) :=
  ⟨by with_unfolding_all rfl,
    decode_positions wbuf20 wparams20 wout20 (by with_unfolding_all rfl)⟩

/-- C6: decoding zero points succeeds on any buffer and produces empty
output buffers, a mean left at its seed (0, 0, 0), and a tight bounding box
left at its seed (min +∞, max −∞). -/
theorem decode_zero_points (buf : Buf) (sps fmt : Nat) (sc off mins : Vec3) :
    decode buf ⟨0, sps, fmt, sc, off, mins⟩ =
      some ⟨⟨0, 0, 0⟩, [], [], [], [], [], [],
        ⟨ENum.posInf, ENum.posInf, ENum.posInf⟩,
        ⟨ENum.negInf, ENum.negInf, ENum.negInf⟩, []⟩ := rfl

/-- C7: with `point_format_id = 2` the worker reads unsigned 16-bit colour
channels at record offsets 20, 22 and 24, stores each divided by 256 and
truncated to an 8-bit value, and sets alpha to 255; with any other format id
it never writes the colour buffer, which stays all zeroes as allocated. -/
theorem decode_colors (buf : Buf) (p : DecodeParams) (out : OutMessage)
    (h : decode buf p = some out) :
    (p.pointFormatID = 2 →
      ∀ i, i < p.numPoints →
        ∃ r g b : Nat,
          getUint16LE buf (i * p.pointSize + 20) = some r ∧
          getUint16LE buf (i * p.pointSize + 22) = some g ∧
          getUint16LE buf (i * p.pointSize + 24) = some b ∧
          out.color[4 * i]? = some (r / 256) ∧
          out.color[4 * i + 1]? = some (g / 256) ∧
          out.color[4 * i + 2]? = some (b / 256) ∧
          out.color[4 * i + 3]? = some 255) ∧
    (p.pointFormatID ≠ 2 → out.color = List.replicate (p.numPoints * 4) 0) := by
  obtain ⟨st, hr, hpos, hcol⟩ := decode_some_inv buf p out h
  obtain ⟨_, _, _, _, Rec, Cno⟩ :=
    runUpTo_extract buf p p.numPoints 0 (initState p.numPoints) st hr
  constructor
  · intro hf i hi
    obtain ⟨_, hc⟩ := Rec i (by omega) (by omega)
    obtain ⟨r, g, b, h1, h2, h3, h4⟩ := hc hf
    have hlen : 4 * i + 3 < (initState p.numPoints).colors.length := by
      simp [initState]
      omega
    obtain ⟨e1, e2, e3, e4⟩ := h4 hlen
    refine ⟨r, g, b, h1, h2, h3, ?_, ?_, ?_, ?_⟩
    · rw [hcol]; exact e1
    · rw [hcol]; exact e2
    · rw [hcol]; exact e3
    · rw [hcol]; exact e4
  · intro hf
    rw [hcol, Cno hf]
    rfl

/-- Witness for C7: a one-record format-2 buffer whose colour channels
truncate to bytes 2, 1 and 3, and whose alpha is 255. -/
theorem decode_colors_witness :
    decode wbuf26 wparams26 = some wout26 ∧
    ((wparams26.pointFormatID = 2 →
      ∀ i, i < wparams26.numPoints →
        ∃ r g b : Nat,
          getUint16LE wbuf26 (i * wparams26.pointSize + 20) = some r ∧
          getUint16LE wbuf26 (i * wparams26.pointSize + 22) = some g ∧
          getUint16LE wbuf26 (i * wparams26.pointSize + 24) = some b ∧
          wout26.color[4 * i]? = some (r / 256) ∧
          wout26.color[4 * i + 1]? = some (g / 256) ∧
          wout26.color[4 * i + 2]? = some (b / 256) ∧
          wout26.color[4 * i + 3]? = some 255) ∧
     (wparams26.pointFormatID ≠ 2 →
       wout26.color = List.replicate (wparams26.numPoints * 4) 0)) :=
  ⟨by with_unfolding_all rfl,
    decode_colors wbuf26 wparams26 wout26 (by with_unfolding_all rfl)⟩

/-- C10: a message with no `data`, or whose `data` has no `buffer`, makes
the worker return silently: nothing is decoded, no result message and no
error is posted, and no exception is thrown. -/
theorem onmessage_silent_without_buffer (e : WorkerEvent)
    (h : e.data = none ∨ ∃ d, e.data = some d ∧ d.buffer = none) :
    onmessage e = WorkerResult.silent := by
  obtain ⟨data⟩ := e
  rcases h with h | ⟨d, hd, hb⟩
  · have h2 : data = none := h
    subst h2
    rfl
  · have h2 : data = some d := hd
    subst h2
    obtain ⟨buffer, params⟩ := d
    have h3 : buffer = none := hb
    subst h3
    rfl

/-- Witness for C10: the event with absent `data`. -/
theorem onmessage_silent_without_buffer_witness :
    ((⟨none⟩ : WorkerEvent).data = none ∨
      ∃ d, (⟨none⟩ : WorkerEvent).data = some d ∧ d.buffer = none) ∧
    onmessage ⟨none⟩ = WorkerResult.silent :=
  ⟨Or.inl rfl, onmessage_silent_without_buffer ⟨none⟩ (Or.inl rfl)⟩

/-- C8: the computed offset equals the minimum corner of the declared global
bounding box; the returned global box and the tight box (which defaults to
the global corners when absent) are both translated by subtracting that
offset from both corners, so the returned global box's minimum corner is
the origin. -/
theorem getBoundingBoxes_spec (bb : BoundingBoxData) (tight : Option BoundingBoxData) :
    (getBoundingBoxes bb tight).1 = ⟨bb.lx, bb.ly, bb.lz⟩ ∧
    (getBoundingBoxes bb tight).2.1 =
      ⟨vsub ⟨bb.lx, bb.ly, bb.lz⟩ ⟨bb.lx, bb.ly, bb.lz⟩,
       vsub ⟨bb.ux, bb.uy, bb.uz⟩ ⟨bb.lx, bb.ly, bb.lz⟩⟩ ∧
    (getBoundingBoxes bb tight).2.1.bmin = ⟨0, 0, 0⟩ ∧
    (getBoundingBoxes bb tight).2.2 =
      ⟨vsub ⟨(tight.getD bb).lx, (tight.getD bb).ly, (tight.getD bb).lz⟩
         ⟨bb.lx, bb.ly, bb.lz⟩,
       vsub ⟨(tight.getD bb).ux, (tight.getD bb).uy, (tight.getD bb).uz⟩
         ⟨bb.lx, bb.ly, bb.lz⟩⟩ := by
  rcases tight with _ | t <;> simp [getBoundingBoxes, vsub]

theorem strLtB_irrefl : ∀ a : Name, strLtB a a = false := by
  intro a
  induction a with
  | nil => rfl
  | cons c t ih => simp [strLtB, ih]

theorem strLtB_trans : ∀ a b c : Name,
    strLtB a b = true → strLtB b c = true → strLtB a c = true := by
  intro a
  induction a with
  | nil =>
    intro b c hab hbc
    cases b with
    | nil => exact absurd hab (by simp [strLtB])
    | cons bh bt =>
      cases c with
      | nil => exact absurd hbc (by simp [strLtB])
      | cons ch ct => simp [strLtB]
  | cons ah at' ih =>
    intro b c hab hbc
    cases b with
    | nil => exact absurd hab (by simp [strLtB])
    | cons bh bt =>
      cases c with
      | nil => exact absurd hbc (by simp [strLtB])
      | cons ch ct =>
        simp only [strLtB] at hab hbc ⊢
        by_cases h1 : ah.toNat < bh.toNat
        · by_cases h2 : bh.toNat < ch.toNat
          · rw [if_pos (show ah.toNat < ch.toNat by omega)]
          · rw [if_neg h2] at hbc
            by_cases h3 : ch.toNat < bh.toNat
            · rw [if_pos h3] at hbc
              exact absurd hbc (by simp)
            · rw [if_pos (show ah.toNat < ch.toNat by omega)]
        · rw [if_neg h1] at hab
          by_cases h3 : bh.toNat < ah.toNat
          · rw [if_pos h3] at hab
            exact absurd hab (by simp)
          · rw [if_neg h3] at hab
            by_cases h2 : bh.toNat < ch.toNat
            · rw [if_pos (show ah.toNat < ch.toNat by omega)]
            · rw [if_neg h2] at hbc
              by_cases h4 : ch.toNat < bh.toNat
              · rw [if_pos h4] at hbc
                exact absurd hbc (by simp)
              · rw [if_neg h4] at hbc
                rw [if_neg (show ¬ah.toNat < ch.toNat by omega),
                  if_neg (show ¬ch.toNat < ah.toNat by omega)]
                exact ih bt ct hab hbc

theorem strLtB_eq_of_not_lt : ∀ a b : Name,
    strLtB a b = false → strLtB b a = false → a = b := by
  intro a
  induction a with
  | nil =>
    intro b hab _
    cases b with
    | nil => rfl
    | cons bh bt => exact absurd hab (by simp [strLtB])
  | cons ah at' ih =>
    intro b hab hba
    cases b with
    | nil => exact absurd hba (by simp [strLtB])
    | cons bh bt =>
      simp only [strLtB] at hab hba
      by_cases h1 : ah.toNat < bh.toNat
      · rw [if_pos h1] at hab
        exact absurd hab (by simp)
      · by_cases h2 : bh.toNat < ah.toNat
        · rw [if_pos h2] at hba
          exact absurd hba (by simp)
        · rw [if_neg h1, if_neg h2] at hab
          rw [if_neg h2, if_neg h1] at hba
          have h5 : ah.toNat = bh.toNat := by omega
          have hhead : ah = bh := Char.eq_of_val_eq (UInt32.ext h5)
          have htail : at' = bt := ih bt hab hba
          rw [hhead, htail]

theorem byLevelAndIndex_neg_iff (a b : Name) :
    byLevelAndIndex a b < 0 ↔
      a.length < b.length ∨ (a.length = b.length ∧ strLtB a b = true) := by
  unfold byLevelAndIndex
  by_cases hl : a.length = b.length
  · rw [if_neg (by omega)]
    by_cases h1 : strLtB a b = true
    · rw [if_pos h1]
      constructor
      · intro _
        exact Or.inr ⟨hl, h1⟩
      · intro _
        omega
    · rw [if_neg h1]
      by_cases h2 : strLtB b a = true
      · rw [if_pos h2]
        constructor
        · intro h
          omega
        · rintro (h | ⟨_, h3⟩)
          · omega
          · exact absurd h3 h1
      · rw [if_neg h2]
        constructor
        · intro h
          omega
        · rintro (h | ⟨_, h3⟩)
          · omega
          · exact absurd h3 h1
  · rw [if_pos hl]
    constructor
    · intro h
      left
      omega
    · rintro (h | ⟨h2, _⟩)
      · omega
      · exact absurd h2 hl

/-- C9: the comparator `byLevelAndIndex` orders a node with a shorter name
before one with a longer name, orders equal-length names lexicographically,
returns 0 exactly when the names are equal, and is a strict total order on
distinct names: asymmetric, transitive, and total. -/
theorem byLevelAndIndex_strict_total_order :
    (∀ a b : Name, a.length < b.length → byLevelAndIndex a b < 0) ∧
    (∀ a b : Name, a.length = b.length →
      (byLevelAndIndex a b < 0 ↔ strLtB a b = true)) ∧
    (∀ a b : Name, byLevelAndIndex a b = 0 ↔ a = b) ∧
    (∀ a b : Name, byLevelAndIndex a b < 0 → 0 < byLevelAndIndex b a) ∧
    (∀ a b c : Name, byLevelAndIndex a b < 0 → byLevelAndIndex b c < 0 →
      byLevelAndIndex a c < 0) ∧
    (∀ a b : Name, a ≠ b → byLevelAndIndex a b < 0 ∨ byLevelAndIndex b a < 0) := by
  have hneg := byLevelAndIndex_neg_iff
  refine ⟨?_, ?_, ?_, ?_, ?_, ?_⟩
  · intro a b h
    exact (hneg a b).mpr (Or.inl h)
  · intro a b h
    rw [hneg a b]
    constructor
    · rintro (h2 | ⟨_, h2⟩)
      · omega
      · exact h2
    · intro h2
      exact Or.inr ⟨h, h2⟩
  · intro a b
    unfold byLevelAndIndex
    by_cases hl : a.length = b.length
    · rw [if_neg (by omega)]
      by_cases h1 : strLtB a b = true
      · rw [if_pos h1]
        constructor
        · intro h
          omega
        · intro h
          subst h
          rw [strLtB_irrefl a] at h1
          exact absurd h1 (by simp)
      · rw [if_neg h1]
        by_cases h2 : strLtB b a = true
        · rw [if_pos h2]
          constructor
          · intro h
            omega
          · intro h
            subst h
            rw [strLtB_irrefl a] at h2
            exact absurd h2 (by simp)
        · rw [if_neg h2]
          constructor
          · intro _
            exact strLtB_eq_of_not_lt a b (by simpa using h1) (by simpa using h2)
          · intro _
            rfl
    · rw [if_pos hl]
      constructor
      · intro h
        omega
      · intro h
        subst h
        exact absurd rfl hl
  · intro a b h
    rcases (hneg a b).mp h with h2 | ⟨h2, h3⟩
    · unfold byLevelAndIndex
      rw [if_pos (by omega)]
      omega
    · unfold byLevelAndIndex
      rw [if_neg (by omega)]
      have hba : strLtB b a = false := by
        by_contra hc
        have := strLtB_trans a b a h3 (by simpa using hc)
        rw [strLtB_irrefl a] at this
        exact absurd this (by simp)
      rw [if_neg (show ¬strLtB b a = true by simp [hba]), if_pos h3]
      omega
  · intro a b c hab hbc
    rcases (hneg a b).mp hab with h1 | ⟨h1, h2⟩ <;>
      rcases (hneg b c).mp hbc with h3 | ⟨h3, h4⟩
    · exact (hneg a c).mpr (Or.inl (by omega))
    · exact (hneg a c).mpr (Or.inl (by omega))
    · exact (hneg a c).mpr (Or.inl (by omega))
    · exact (hneg a c).mpr (Or.inr ⟨by omega, strLtB_trans a b c h2 h4⟩)
  · intro a b h
    by_cases hl : a.length = b.length
    · by_cases h1 : strLtB a b = true
      · exact Or.inl ((hneg a b).mpr (Or.inr ⟨hl, h1⟩))
      · by_cases h2 : strLtB b a = true
        · exact Or.inr ((hneg b a).mpr (Or.inr ⟨hl.symm, h2⟩))
        · exact absurd (strLtB_eq_of_not_lt a b (by simpa using h1) (by simpa using h2)) h
    · rcases Nat.lt_or_ge a.length b.length with h2 | h2
      · exact Or.inl ((hneg a b).mpr (Or.inl h2))
      · exact Or.inr ((hneg b a).mpr (Or.inl (by omega)))

/-- Witness for C9: `r` sorts before `r0`, and `r0` / `r3` are comparable. -/
theorem byLevelAndIndex_strict_total_order_witness :
    ((['r'] : Name).length < (['r', '0'] : Name).length ∧
      byLevelAndIndex ['r'] ['r', '0'] < 0) ∧
    (byLevelAndIndex ['r', '0'] ['r', '3'] < 0 ∨
      byLevelAndIndex ['r', '3'] ['r', '0'] < 0) :=
  ⟨⟨by decide, byLevelAndIndex_strict_total_order.1 ['r'] ['r', '0'] (by decide)⟩,
   byLevelAndIndex_strict_total_order.2.2.2.2.2 ['r', '0'] ['r', '3'] (by decide)⟩

theorem versionLe_14_15 (v : List Nat) (h : versionLe v [1, 4] = true) :
    versionLe v [1, 5] = true := by
  match v with
  | [] => rfl
  | [a] =>
    simp only [versionLe] at h ⊢
    by_cases h1 : a < 1
    · rw [if_pos h1]
    · rw [if_neg h1] at h ⊢
      by_cases h2 : 1 < a
      · rw [if_pos h2] at h
        exact absurd h (by simp)
      · rw [if_neg h2] at h ⊢
        rfl
  | a :: b :: rest =>
    simp only [versionLe] at h ⊢
    by_cases h1 : a < 1
    · rw [if_pos h1]
    · rw [if_neg h1] at h ⊢
      by_cases h2 : 1 < a
      · rw [if_pos h2] at h
        exact absurd h (by simp)
      · rw [if_neg h2] at h ⊢
        by_cases h3 : b < 4
        · rw [if_pos (show b < 5 by omega)]
        · rw [if_neg h3] at h
          by_cases h4 : 4 < b
          · rw [if_pos h4] at h
            exact absurd h (by simp)
          · rw [if_pos (show b < 5 by omega)]

/-- C2 (counterexample): at version 1.5 the built root's numPoints is taken
from the first flat-hierarchy entry (here 100, not 0) even though 1.5 is
strictly above the inline-population threshold 1.4 — the two decisions do
not share one threshold. -/
theorem version_gate_thresholds_differ :
    versionLe [1, 5] [1, 4] = false ∧
    versionLe [1, 5] [1, 5] = true ∧
    (loadRoot 1 ⟨⟨0, 0, 0⟩, ⟨1, 1, 1⟩⟩ [1, 5] [(['r'], 100)]).bind
      (fun m => (mapGet m ['r']).map GeoNode.numPoints) = some 100 ∧
    (100 : Nat) ≠ 0 := by
  refine ⟨by decide, by decide, ?_, by decide⟩
  with_unfolding_all rfl

/-- C2 (amended): the two version-gate decisions use different legacy
thresholds: the built root's numPoints equals the first flat-hierarchy
entry's count exactly when the version is at-or-below 1.5 (0 otherwise),
while the remaining tree is populated inline from the flat list exactly
when the version is at-or-below the distinct threshold 1.4. -/
theorem version_gates_spec (sp : ℚ) (bb : Box3) (v : List Nat) (e : Name × Nat)
    (rest : List (Name × Nat)) :
    (∃ m, loadRoot sp bb v (e :: rest) = some m ∧
      ∃ root, mapGet m ['r'] = some root ∧
        root.numPoints = (if versionLe v [1, 5] = true then e.2 else 0)) ∧
    (versionLe v [1, 4] = true →
      buildNodes sp bb v (e :: rest) =
        (loadRoot sp bb v (e :: rest)).bind
          (fun nodes => loadRemainingHierarchy sp nodes rest)) ∧
    (versionLe v [1, 4] = false →
      buildNodes sp bb v (e :: rest) = loadRoot sp bb v (e :: rest)) := by
  refine ⟨?_, ?_, ?_⟩
  · by_cases hv : versionLe v [1, 5] = true
    · refine ⟨mapSet [] ['r'] ⟨['r'], 0, e.2, sp, bb, true, []⟩, ?_, ?_⟩
      · unfold loadRoot
        rw [if_pos hv]
        rfl
      · refine ⟨⟨['r'], 0, e.2, sp, bb, true, []⟩, rfl, ?_⟩
        rw [if_pos hv]
    · refine ⟨mapSet [] ['r'] ⟨['r'], 0, 0, sp, bb, true, []⟩, ?_, ?_⟩
      · unfold loadRoot
        rw [if_neg hv]
      · refine ⟨⟨['r'], 0, 0, sp, bb, true, []⟩, rfl, ?_⟩
        rw [if_neg hv]
  · intro hv
    unfold buildNodes
    rcases hlr : loadRoot sp bb v (e :: rest) with _ | nodes
    · rfl
    · simp [hv]
  · intro hv
    unfold buildNodes
    rcases hlr : loadRoot sp bb v (e :: rest) with _ | nodes
    · rfl
    · simp [hv]

/-- Witness for C2 (amended): the gates evaluated at version 1.4 with a
one-entry hierarchy. -/
theorem version_gates_spec_witness :
    (∃ m, loadRoot 1 ⟨⟨0, 0, 0⟩, ⟨1, 1, 1⟩⟩ [1, 4] [(['r'], 100)] = some m ∧
      ∃ root, mapGet m ['r'] = some root ∧
        root.numPoints = (if versionLe [1, 4] [1, 5] = true then (100 : Nat) else 0)) ∧
    (versionLe [1, 4] [1, 4] = true →
      buildNodes 1 ⟨⟨0, 0, 0⟩, ⟨1, 1, 1⟩⟩ [1, 4] [(['r'], 100)] =
        (loadRoot 1 ⟨⟨0, 0, 0⟩, ⟨1, 1, 1⟩⟩ [1, 4] [(['r'], 100)]).bind
          (fun nodes => loadRemainingHierarchy 1 nodes [])) ∧
    (versionLe [1, 4] [1, 4] = false →
      buildNodes 1 ⟨⟨0, 0, 0⟩, ⟨1, 1, 1⟩⟩ [1, 4] [(['r'], 100)] =
        loadRoot 1 ⟨⟨0, 0, 0⟩, ⟨1, 1, 1⟩⟩ [1, 4] [(['r'], 100)]) :=
  version_gates_spec 1 ⟨⟨0, 0, 0⟩, ⟨1, 1, 1⟩⟩ [1, 4] (['r'], 100) []

theorem mapGet_mapSet (m : NodeMap) (k k' : Name) (v : GeoNode) :
    mapGet (mapSet m k v) k' = if k = k' then some v else mapGet m k' := by
  induction m with
  | nil =>
    by_cases h : k = k'
    · simp [mapSet, mapGet, h]
    · simp [mapSet, mapGet, h]
  | cons e t ih =>
    obtain ⟨k0, v0⟩ := e
    by_cases h0 : k0 = k
    · subst h0
      by_cases h1 : k0 = k'
      · subst h1
        simp [mapSet, mapGet]
      · simp [mapSet, mapGet, h1]
    · by_cases h1 : k0 = k'
      · subst h1
        have hkk : ¬k = k0 := fun hc => h0 hc.symm
        simp [mapSet, mapGet, h0, hkk]
      · simp [mapSet, mapGet, h0, h1, ih]

theorem mapGet_ne_none_iff (m : NodeMap) (k : Name) :
    mapGet m k ≠ none ↔ k ∈ m.map Prod.fst := by
  induction m with
  | nil => simp [mapGet]
  | cons e t ih =>
    obtain ⟨k0, v0⟩ := e
    by_cases h : k0 = k
    · subst h
      constructor
      · intro _
        rw [List.map_cons]
        exact List.mem_cons_self _ _
      · intro _
        rw [mapGet, if_pos rfl]
        exact Option.some_ne_none v0
    · simp only [mapGet, if_neg h, List.map_cons, List.mem_cons]
      rw [ih]
      constructor
      · intro h2
        exact Or.inr h2
      · rintro (h2 | h2)
        · exact absurd h2.symm h
        · exact h2

theorem keys_mapSet_mem (m : NodeMap) (k : Name) (v : GeoNode)
    (h : mapGet m k ≠ none) :
    (mapSet m k v).map Prod.fst = m.map Prod.fst := by
  induction m with
  | nil => simp [mapGet] at h
  | cons e t ih =>
    obtain ⟨k0, v0⟩ := e
    by_cases h0 : k0 = k
    · subst h0
      simp [mapSet]
    · rw [mapGet, if_neg h0] at h
      simp [mapSet, h0, ih h]

theorem keys_mapSet_fresh (m : NodeMap) (k : Name) (v : GeoNode)
    (h : mapGet m k = none) :
    (mapSet m k v).map Prod.fst = m.map Prod.fst ++ [k] := by
  induction m with
  | nil => simp [mapSet]
  | cons e t ih =>
    obtain ⟨k0, v0⟩ := e
    by_cases h0 : k0 = k
    · subst h0
      rw [mapGet] at h
      simp at h
    · rw [mapGet, if_neg h0] at h
      simp [mapSet, h0, ih h]

theorem slotGet_slotSet (ch : Slots) (i i' : Option Nat) (n : Name) :
    slotGet (slotSet ch i n) i' = if i = i' then some n else slotGet ch i' := by
  induction ch with
  | nil =>
    by_cases h : i = i'
    · simp [slotSet, slotGet, h]
    · simp [slotSet, slotGet, h]
  | cons e t ih =>
    obtain ⟨i0, n0⟩ := e
    by_cases h0 : i0 = i
    · subst h0
      by_cases h1 : i0 = i'
      · subst h1
        simp [slotSet, slotGet]
      · simp [slotSet, slotGet, h1]
    · by_cases h1 : i0 = i'
      · subst h1
        have hii : ¬i = i0 := fun hc => h0 hc.symm
        simp [slotSet, slotGet, h0, hii]
      · simp [slotSet, slotGet, h0, h1, ih]

theorem digit_char_eq (a b : Char) (ha : a.isDigit = true) (hb : b.isDigit = true)
    (h : a.toNat - 48 = b.toNat - 48) : a = b := by
  simp [Char.isDigit] at ha hb
  obtain ⟨ha1, _⟩ := ha
  obtain ⟨hb1, _⟩ := hb
  have h48 : (48 : UInt32).toNat = 48 := rfl
  have ta : 48 ≤ a.toNat := by
    have t2 : (48 : UInt32).toNat ≤ a.val.toNat := ha1
    rw [h48] at t2
    exact t2
  have tb : 48 ≤ b.toNat := by
    have t2 : (48 : UInt32).toNat ≤ b.val.toNat := hb1
    rw [h48] at t2
    exact t2
  have heq : a.toNat = b.toNat := by omega
  exact Char.eq_of_val_eq (UInt32.ext heq)

theorem name_eq_of_parent_index (a b : Name) (ha : a ≠ []) (hb : b ≠ [])
    (hpar : a.dropLast = b.dropLast) (d : Nat)
    (hia : getIndexFromName a = some d) (hib : getIndexFromName b = some d) :
    a = b := by
  unfold getIndexFromName at hia hib
  rcases hga : a.getLast? with _ | ca
  · rw [hga] at hia
    simp at hia
  rcases hgb : b.getLast? with _ | cb
  · rw [hgb] at hib
    simp at hib
  rw [hga] at hia
  rw [hgb] at hib
  simp only [Option.some_bind] at hia hib
  by_cases hda : ca.isDigit = true
  · by_cases hdb : cb.isDigit = true
    · rw [if_pos hda] at hia
      rw [if_pos hdb] at hib
      simp only [Option.some_inj] at hia hib
      have hc : ca = cb := digit_char_eq ca cb hda hdb (by omega)
      have hla : a = a.dropLast ++ [ca] := by
        have := List.dropLast_append_getLast ha
        rw [List.getLast?_eq_getLast a ha] at hga
        simp only [Option.some_inj] at hga
        rw [hga] at this
        exact this.symm
      have hlb : b = b.dropLast ++ [cb] := by
        have := List.dropLast_append_getLast hb
        rw [List.getLast?_eq_getLast b hb] at hgb
        simp only [Option.some_inj] at hgb
        rw [hgb] at this
        exact this.symm
      rw [hla, hlb, hpar, hc]
    · rw [if_neg hdb] at hib
      simp at hib
  · rw [if_neg hda] at hia
    simp at hia

theorem loadRemainingHierarchy_cons (sp : ℚ) (m : NodeMap) (e : Name × Nat)
    (t : List (Name × Nat)) (m2 : NodeMap) (h : hierarchyStep sp m e = some m2) :
    loadRemainingHierarchy sp m (e :: t) = loadRemainingHierarchy sp m2 t := by
  have hu : loadRemainingHierarchy sp m (e :: t) =
      match hierarchyStep sp m e with
      | none => none
      | some mm => loadRemainingHierarchy sp mm t := rfl
  rw [hu, h]

theorem loadRemainingHierarchy_spec (sp : ℚ) :
    ∀ (rest : List (Name × Nat)) (seen : List Name) (m : NodeMap),
      parentBeforeChild seen rest = true →
      (∀ s, s ∈ seen → mapGet m s ≠ none) →
      (m.map Prod.fst ++ rest.map Prod.fst).Nodup →
      childrenWF m →
      ∃ m', loadRemainingHierarchy sp m rest = some m' ∧
        m'.map Prod.fst = m.map Prod.fst ++ rest.map Prod.fst ∧
        childrenWF m' ∧
        (∀ k node, mapGet m k = some node →
          ∃ node', mapGet m' k = some node' ∧
            node'.level = node.level ∧ node'.numPoints = node.numPoints ∧
            node'.spacing = node.spacing ∧
            (∀ i nm, slotGet node.children i = some nm →
              slotGet node'.children i = some nm)) ∧
        (∀ n c, (n, c) ∈ rest →
          ∃ node, mapGet m' n = some node ∧
            node.level = n.length - 1 ∧
            node.numPoints = c ∧
            node.spacing = sp / 2 ^ (n.length - 1) ∧
            ∃ d pnode, getIndexFromName n = some d ∧
              mapGet m' n.dropLast = some pnode ∧
              slotGet pnode.children (some d) = some n) := by
  intro rest
  induction rest with
  | nil =>
    intro seen m _ _ _ hcwf
    refine ⟨m, rfl, by simp, hcwf, ?_, ?_⟩
    · intro k node hk
      exact ⟨node, hk, rfl, rfl, rfl, fun i nm hsl => hsl⟩
    · intro n c hmem
      exact absurd hmem (List.not_mem_nil _)
  | cons e t ih =>
    obtain ⟨n, c⟩ := e
    intro seen m hpb hcov hnd hcwf
    simp only [parentBeforeChild, Bool.and_eq_true, decide_eq_true_eq] at hpb
    obtain ⟨⟨⟨hlen, hmem⟩, hidx⟩, hrest⟩ := hpb
    obtain ⟨d, hd⟩ := Option.isSome_iff_exists.mp hidx
    have hnnil : n ≠ [] := by
      intro hc
      rw [hc] at hlen
      simp at hlen
    have hdne : n.dropLast ≠ n := by
      intro hc
      have hlc := congrArg List.length hc
      rw [List.length_dropLast] at hlc
      omega
    rcases hp : mapGet m n.dropLast with _ | parentNode
    · exact absurd hp (hcov _ hmem)
    -- freshness of n
    rw [List.map_cons] at hnd
    obtain ⟨hnd1, hnd2, hdisj⟩ := List.nodup_append.mp hnd
    have hfresh : mapGet m n = none := by
      rcases hq : mapGet m n with _ | v
      · rfl
      · exact absurd (List.mem_cons_self n _)
          (hdisj ((mapGet_ne_none_iff m n).mp (by rw [hq]; exact Option.some_ne_none v)))
    -- the step
    have hstep : hierarchyStep sp m (n, c) =
        some (mapSet (mapSet m n.dropLast (addChild parentNode (some d) n)) n
          ⟨n, n.length - 1, c, sp / 2 ^ (n.length - 1),
            createChildAABB parentNode.boundingBox (some d), false, []⟩) := by
      unfold hierarchyStep
      simp only [parseName, hd, hp]
    have hloadstep : loadRemainingHierarchy sp m ((n, c) :: t) =
        loadRemainingHierarchy sp
          (mapSet (mapSet m n.dropLast (addChild parentNode (some d) n)) n
            ⟨n, n.length - 1, c, sp / 2 ^ (n.length - 1),
              createChildAABB parentNode.boundingBox (some d), false, []⟩) t :=
      loadRemainingHierarchy_cons sp m (n, c) t _ hstep
    set P := addChild parentNode (some d) n with hP
    set newNode : GeoNode :=
      ⟨n, n.length - 1, c, sp / 2 ^ (n.length - 1),
        createChildAABB parentNode.boundingBox (some d), false, []⟩ with hNew
    set m1 := mapSet m n.dropLast P with hm1
    set m2 := mapSet m1 n newNode with hm2
    have hm1get : ∀ k', mapGet m1 k' =
        if n.dropLast = k' then some P else mapGet m k' := fun k' => mapGet_mapSet m _ k' P
    have hm2get : ∀ k', mapGet m2 k' =
        if n = k' then some newNode else mapGet m1 k' := fun k' => mapGet_mapSet m1 _ k' newNode
    have hm1fresh : mapGet m1 n = none := by
      rw [hm1get, if_neg hdne]
      exact hfresh
    have hkm1 : m1.map Prod.fst = m.map Prod.fst := by
      refine keys_mapSet_mem m _ P ?_
      rw [hp]
      exact Option.some_ne_none parentNode
    have hkm2 : m2.map Prod.fst = m.map Prod.fst ++ [n] := by
      rw [hm2, keys_mapSet_fresh m1 n newNode hm1fresh, hkm1]
    have hlift : ∀ nm, mapGet m nm ≠ none → mapGet m2 nm ≠ none := by
      intro nm h0
      rw [hm2get nm]
      by_cases h1 : n = nm
      · rw [if_pos h1]
        exact Option.some_ne_none newNode
      · rw [if_neg h1, hm1get nm]
        by_cases h2 : n.dropLast = nm
        · rw [if_pos h2]
          exact Option.some_ne_none P
        · rw [if_neg h2]
          exact h0
    -- children invariant for m2
    have hcwf2 : childrenWF m2 := by
      intro k node2 hk i nm hslot
      rw [hm2get k] at hk
      by_cases hkn : n = k
      · rw [if_pos hkn] at hk
        injection hk with hk
        rw [← hk] at hslot
        simp [hNew, slotGet] at hslot
      · rw [if_neg hkn, hm1get k] at hk
        by_cases hkp : n.dropLast = k
        · rw [if_pos hkp] at hk
          injection hk with hk
          rw [← hk] at hslot
          simp only [hP, addChild] at hslot
          rw [slotGet_slotSet] at hslot
          by_cases hi : some d = i
          · rw [if_pos hi] at hslot
            injection hslot with hslot
            refine ⟨by rw [← hslot]; exact hnnil, by rw [← hslot]; exact hkp, ?_, ?_⟩
            · rw [← hslot, ← hi]
              exact hd
            · rw [← hslot, hm2get, if_pos rfl]
              exact Option.some_ne_none newNode
          · rw [if_neg hi] at hslot
            obtain ⟨o1, o2, o3, o4⟩ := hcwf n.dropLast parentNode hp i nm hslot
            exact ⟨o1, by rw [o2, hkp], o3, hlift nm o4⟩
        · rw [if_neg hkp] at hk
          obtain ⟨o1, o2, o3, o4⟩ := hcwf k node2 hk i nm hslot
          exact ⟨o1, o2, o3, hlift nm o4⟩
    -- step preservation m → m2
    have hpres12 : ∀ k node, mapGet m k = some node →
        ∃ node2, mapGet m2 k = some node2 ∧
          node2.level = node.level ∧ node2.numPoints = node.numPoints ∧
          node2.spacing = node.spacing ∧
          (∀ i nm, slotGet node.children i = some nm →
            slotGet node2.children i = some nm) := by
      intro k node hk
      have hkn : n ≠ k := by
        intro hc
        rw [← hc, hfresh] at hk
        cases hk
      by_cases hkp : n.dropLast = k
      · have hnp : node = parentNode := by
          rw [← hkp, hp] at hk
          injection hk with hk
          exact hk.symm
        subst hnp
        refine ⟨P, ?_, rfl, rfl, rfl, ?_⟩
        · rw [hm2get, if_neg hkn, hm1get, if_pos hkp]
        · intro i nm hsl
          simp only [hP, addChild]
          rw [slotGet_slotSet]
          by_cases hi : some d = i
          · exfalso
            obtain ⟨o1, o2, o3, o4⟩ := hcwf k node hk i nm hsl
            have hnm : nm = n := by
              refine name_eq_of_parent_index nm n o1 hnnil ?_ d ?_ hd
              · rw [o2, ← hkp]
              · rw [o3, ← hi]
            rw [hnm] at o4
            exact o4 hfresh
          · rw [if_neg hi]
            exact hsl
      · refine ⟨node, ?_, rfl, rfl, rfl, fun i nm hsl => hsl⟩
        rw [hm2get, if_neg hkn, hm1get, if_neg hkp]
        exact hk
    -- apply the induction hypothesis at m2
    have hcov2 : ∀ s, s ∈ n :: seen → mapGet m2 s ≠ none := by
      intro s hs
      rcases List.mem_cons.mp hs with hs | hs
      · rw [hs] at *
        rw [hm2get, if_pos rfl]
        exact Option.some_ne_none newNode
      · exact hlift s (hcov s hs)
    have hnd2' : (m2.map Prod.fst ++ t.map Prod.fst).Nodup := by
      rw [hkm2, List.append_assoc]
      simpa using hnd
    obtain ⟨m', hrun, hkeys, hcwf', hpres', hrec'⟩ := ih (n :: seen) m2 hrest hcov2 hnd2' hcwf2
    refine ⟨m', ?_, ?_, hcwf', ?_, ?_⟩
    · rw [hloadstep]
      exact hrun
    · rw [hkeys, hkm2, List.map_cons, List.append_assoc]
      rfl
    · intro k node hk
      obtain ⟨node2, hk2, e1, e2, e3, e4⟩ := hpres12 k node hk
      obtain ⟨node', hk', f1, f2, f3, f4⟩ := hpres' k node2 hk2
      exact ⟨node', hk', f1.trans e1, f2.trans e2, f3.trans e3,
        fun i nm hsl => f4 i nm (e4 i nm hsl)⟩
    · intro n' c' hmem'
      rcases List.mem_cons.mp hmem' with hh | hh
      · injection hh with hh1 hh2
        subst hh1
        subst hh2
        have hk2 : mapGet m2 n' = some newNode := by
          rw [hm2get, if_pos rfl]
        obtain ⟨node', hk', f1, f2, f3, f4⟩ := hpres' n' newNode hk2
        have hkp2 : mapGet m2 n'.dropLast = some P := by
          rw [hm2get, if_neg (fun hc => hdne hc.symm), hm1get, if_pos rfl]
        obtain ⟨pnode', hkp', g1, g2, g3, g4⟩ := hpres' n'.dropLast P hkp2
        refine ⟨node', hk', ?_, ?_, ?_, d, pnode', hd, hkp', ?_⟩
        · rw [f1]
        · rw [f2]
        · rw [f3]
        · refine g4 (some d) n' ?_
          simp only [hP, addChild]
          rw [slotGet_slotSet, if_pos rfl]
      · exact hrec' n' c' hh

/-- C5: during the legacy hierarchy build, an entry whose parent name is not
present in the node map aborts the whole build at once (the thrown error on
the missing parent is fatal): the build returns no result at all, so no
partial tree is ever handed back. -/
theorem loadRemainingHierarchy_missing_parent (sp : ℚ) (m : NodeMap)
    (n : Name) (c : Nat) (rest : List (Name × Nat))
    (h : mapGet m (parseName n).parentName = none) :
    loadRemainingHierarchy sp m ((n, c) :: rest) = none := by
  have hu : loadRemainingHierarchy sp m ((n, c) :: rest) =
      match hierarchyStep sp m (n, c) with
      | none => none
      | some mm => loadRemainingHierarchy sp mm rest := rfl
  have hs : hierarchyStep sp m (n, c) = none := by
    simp only [parseName] at h
    unfold hierarchyStep
    simp only [parseName, h]
  rw [hu, hs]

/-- Witness for C5: the entry `r03` processed against a map holding only the
root, whose parent `r0` is missing. -/
theorem loadRemainingHierarchy_missing_parent_witness :
    mapGet [(['r'], ⟨['r'], 0, 100, 1, ⟨⟨0, 0, 0⟩, ⟨1, 1, 1⟩⟩, true, []⟩)]
      (parseName ['r', '0', '3']).parentName = none ∧
    loadRemainingHierarchy 1 [(['r'], ⟨['r'], 0, 100, 1, ⟨⟨0, 0, 0⟩, ⟨1, 1, 1⟩⟩, true, []⟩)]
      [(['r', '0', '3'], 10)] = none :=
  ⟨by decide,
    loadRemainingHierarchy_missing_parent 1
      [(['r'], ⟨['r'], 0, 100, 1, ⟨⟨0, 0, 0⟩, ⟨1, 1, 1⟩⟩, true, []⟩)]
      ['r', '0', '3'] 10 [] (by decide)⟩

/-- C3: for a legacy-version metadata document whose flat hierarchy list is
parent-before-child with pairwise-distinct names, every entry after the
first yields exactly one node registered under its name, with level
`length(name) − 1`, numPoints equal to the entry's count, spacing
`root spacing / 2^level`, attached to the node named by its name minus its
last character at the child slot indexed by the digit value of that last
character; and no two nodes of the built map share a name. -/
theorem legacy_hierarchy_roundtrip (sp : ℚ) (bb : Box3) (v : List Nat)
    (c0 : Nat) (rest : List (Name × Nat))
    (hv : versionLe v [1, 4] = true)
    (hpb : parentBeforeChild [['r']] rest = true)
    (hnd : (['r'] :: rest.map Prod.fst).Nodup) :
    ∃ m, buildNodes sp bb v ((['r'], c0) :: rest) = some m ∧
      (m.map Prod.fst).Nodup ∧
      ∀ n c, (n, c) ∈ rest →
        ∃ node, mapGet m n = some node ∧
          node.level = n.length - 1 ∧
          node.numPoints = c ∧
          node.spacing = sp / 2 ^ (n.length - 1) ∧
          ∃ d pnode, getIndexFromName n = some d ∧
            mapGet m n.dropLast = some pnode ∧
            slotGet pnode.children (some d) = some n := by
  have hv5 := versionLe_14_15 v hv
  have hroot : loadRoot sp bb v ((['r'], c0) :: rest) =
      some [(['r'], ⟨['r'], 0, c0, sp, bb, true, []⟩)] := by
    unfold loadRoot
    rw [if_pos hv5]
    rfl
  have hu : buildNodes sp bb v ((['r'], c0) :: rest) =
      (if versionLe v [1, 4] = true then
        loadRemainingHierarchy sp [(['r'], ⟨['r'], 0, c0, sp, bb, true, []⟩)] rest
      else some [(['r'], ⟨['r'], 0, c0, sp, bb, true, []⟩)]) := by
    unfold buildNodes
    rw [hroot]
    rfl
  have hcov : ∀ s, s ∈ [(['r'] : Name)] →
      mapGet [(['r'], (⟨['r'], 0, c0, sp, bb, true, []⟩ : GeoNode))] s ≠ none := by
    intro s hs
    rcases List.mem_singleton.mp hs with hs
    rw [hs, mapGet, if_pos rfl]
    exact Option.some_ne_none _
  have hnd' : (([(['r'], (⟨['r'], 0, c0, sp, bb, true, []⟩ : GeoNode))].map Prod.fst)
      ++ rest.map Prod.fst).Nodup := by
    simpa using hnd
  have hcwf : childrenWF [(['r'], (⟨['r'], 0, c0, sp, bb, true, []⟩ : GeoNode))] := by
    intro k node hk i nm hsl
    rw [mapGet] at hk
    by_cases h : ['r'] = k
    · rw [if_pos h] at hk
      injection hk with hk
      rw [← hk] at hsl
      simp [slotGet] at hsl
    · rw [if_neg h] at hk
      exact Option.noConfusion hk
  obtain ⟨m', hrun, hkeys, _, _, hrec'⟩ :=
    loadRemainingHierarchy_spec sp rest [['r']]
      [(['r'], ⟨['r'], 0, c0, sp, bb, true, []⟩)] hpb hcov hnd' hcwf
  refine ⟨m', ?_, ?_, hrec'⟩
  · rw [hu, if_pos hv]
    exact hrun
  · rw [hkeys]
    simpa using hnd

/-- Witness for C3: the spec's scenario document — version 1.4, hierarchy
`[("r", 100), ("r0", 40), ("r03", 10)]`. -/
theorem legacy_hierarchy_roundtrip_witness :
    versionLe [1, 4] [1, 4] = true ∧
    parentBeforeChild [['r']] [(['r', '0'], 40), (['r', '0', '3'], 10)] = true ∧
    ((['r'] : Name) :: [((['r', '0'] : Name), 40), ((['r', '0', '3'] : Name), 10)].map
      Prod.fst).Nodup ∧
    (∃ m, buildNodes 1 ⟨⟨0, 0, 0⟩, ⟨1, 1, 1⟩⟩ [1, 4]
        [(['r'], 100), (['r', '0'], 40), (['r', '0', '3'], 10)] = some m ∧
      (m.map Prod.fst).Nodup ∧
      ∀ n c, (n, c) ∈ [((['r', '0'] : Name), 40), ((['r', '0', '3'] : Name), 10)] →
        ∃ node, mapGet m n = some node ∧
          node.level = n.length - 1 ∧
          node.numPoints = c ∧
          node.spacing = 1 / 2 ^ (n.length - 1) ∧
          ∃ d pnode, getIndexFromName n = some d ∧
            mapGet m n.dropLast = some pnode ∧
            slotGet pnode.children (some d) = some n) :=
  ⟨by decide, by decide, by decide,
    legacy_hierarchy_roundtrip 1 ⟨⟨0, 0, 0⟩, ⟨1, 1, 1⟩⟩ [1, 4] 100
      [(['r', '0'], 40), (['r', '0', '3'], 10)] (by decide) (by decide) (by decide)⟩
